import Mathlib

/-!
# Verification of the pocket-remote host streaming core

Shallow embedding of the screen-sharing host (`src/desktop/src-tauri/src`):
the data-channel packetizer and still-image encoder of `webrtc_screen.rs`,
the H.264 encoder state machine of `h264_encoder.rs`, the reliable-path crop
of `screen_capture.rs`, and the per-connection session loop of `lib.rs`.

Bytes are modelled as natural numbers, byte buffers as `List Nat`.  Calls into
external libraries (the JPEG encoder of the `image` crate and the `openh264`
codec) are abstracted as oracle parameters or, for the codec, by the
documented contract of `force_intra_frame`; everything else is translated
directly from the Rust source.
-/

namespace PocketRemote

/-! ## Packetizer (`webrtc_screen.rs`, `encode_frame_h264`, lines 624-655) -/

/-- `max_packet_size` from `webrtc_screen.rs` line 625: 15 KiB. -/
def maxPacketSize : Nat := 15 * 1024

/-- `.chunks(n)` of Rust slices, with explicit fuel (`l.length` always
suffices, see `chunksOfAux_join`). -/
def chunksOfAux (n : Nat) : Nat → List Nat → List (List Nat)
  | 0, _ => []
  | _, [] => []
  | fuel + 1, l => l.take n :: chunksOfAux n fuel (l.drop n)

/-- Split a list into consecutive chunks of length `n` (the last one may be
shorter), as Rust's `slice::chunks(n)`. -/
def chunksOf (n : Nat) (l : List Nat) : List (List Nat) :=
  chunksOfAux n l.length l

/-- The packet-building part of `encode_frame_h264` (`webrtc_screen.rs` lines
619-654): an empty bitstream yields no packets; a bitstream that fits the
15 KiB budget becomes one `0x01`-tagged packet; a larger one is split into
`0x02`-tagged fragments with a 4-byte `index / total / frame_id_be` header.
`as u8` casts are `% 256`, `frame_id` is `frame_count & 0xFFFF`. -/
def packetizeH264 (h264Data : List Nat) (frameCount : Nat) : List (List Nat) :=
  if h264Data.length = 0 then []
  else if h264Data.length ≤ maxPacketSize then
    [0x01 :: h264Data]
  else
    let frameId := frameCount % 65536
    let totalFragments := ((h264Data.length + maxPacketSize - 1) / maxPacketSize) % 256
    (chunksOf maxPacketSize h264Data).enum.map fun p =>
      0x02 :: p.1 % 256 :: totalFragments :: frameId / 256 :: frameId % 256 :: p.2

/-- `⌈len / maxPacketSize⌉`, the `total_fragments` count of
`webrtc_screen.rs` line 637 (before the `as u8` cast). -/
def fragTotal (len : Nat) : Nat := (len + maxPacketSize - 1) / maxPacketSize

/-! ## Capture region and crop (`lib.rs` lines 221-234, `webrtc_screen.rs`
lines 417-438 and 681-690) -/

/-- `CaptureRegion` of `lib.rs`; all numeric fields are `i32` in the source,
modelled as unbounded `Int` (the crop arithmetic applies the `as usize`
wrap explicitly). -/
structure CaptureRegion where
  x : Int
  y : Int
  width : Int
  height : Int
  viewport_x : Int
  viewport_y : Int
  viewport_width : Int
  viewport_height : Int
  quality_mode : String
  deriving DecidableEq

/-- Rust `v as usize` on an `i32` value: sign-extend to 64 bits and
reinterpret, i.e. reduce modulo `2^64`. -/
def i32ToUsize (v : Int) : Nat := (v % (2 : Int) ^ 64).toNat

/-- The crop clamp shared by `encode_frame` (lines 418-429) and the H.264 arm
of `encode_frame_auto` (lines 681-690): `x = min x (width-1)`,
`y = min y (height-1)`, `w = min w (width - x)`, `h = min h (height - y)`,
with `saturating_sub` = truncated `Nat` subtraction. -/
def cropParams (region : Option CaptureRegion) (width height : Nat) :
    Nat × Nat × Nat × Nat :=
  match region with
  | some r =>
      let x := min (i32ToUsize r.x) (width - 1)
      let y := min (i32ToUsize r.y) (height - 1)
      let w := min (i32ToUsize r.width) (width - x)
      let h := min (i32ToUsize r.height) (height - y)
      (x, y, w, h)
  | none => (0, 0, width, height)

/-! ## Still-image encoder (`webrtc_screen.rs`, `encode_frame`, lines 400-556) -/

/-- The 128-byte-aligned row stride of `encode_frame` lines 406-409. -/
def frameStride (width : Nat) : Nat := (width * 4 + 127) / 128 * 128

/-- `max_size` of `encode_frame` line 526: 63 KiB. -/
def maxStillBytes : Nat := 63 * 1024

/-- The scale / start-quality table of `encode_frame` lines 480-505, keyed on
the cropped pixel count (scale `2` means "send at 1/2 size"). -/
def scaleQuality (pixelCount : Nat) : Nat × Nat :=
  if pixelCount ≤ 150000 then (1, 80)
  else if pixelCount ≤ 300000 then (1, 65)
  else if pixelCount ≤ 600000 then (2, 70)
  else (2, 65)

/-- The quality-reduction loop of `encode_frame` lines 530-555.  `enc q` is
the JPEG bytes the `image` crate produces for the (fixed) cropped and scaled
frame at quality `q`, `none` on encoder failure.  Returns the bytes once they
fit in 63 KiB, gives up on failure or once `q ≤ 10`, otherwise retries at
`q - 5` (`saturating_sub 5` = `Nat` subtraction). -/
def qualityLoop (enc : Nat → Option (List Nat)) (quality : Nat) :
    Option (List Nat) :=
  match enc quality with
  | none => none
  | some data =>
    if data.length ≤ maxStillBytes then some data
    else if h : quality ≤ 10 then none
    else qualityLoop enc (quality - 5)
termination_by quality
decreasing_by omega

/-- Fuel-indexed version of `qualityLoop`, used to state termination:
`none` means the fuel ran out, `some r` that the loop returned `r`. -/
def qualityLoopF (enc : Nat → Option (List Nat)) :
    Nat → Nat → Option (Option (List Nat))
  | 0, _ => none
  | fuel + 1, quality =>
    match enc quality with
    | none => some none
    | some data =>
      if data.length ≤ maxStillBytes then some (some data)
      else if quality ≤ 10 then some none
      else qualityLoopF enc fuel (quality - 5)

/-- `encode_frame` (`webrtc_screen.rs` lines 400-556): buffer-length check
against `stride * height`, crop clamp, zero-area rejection, table lookup and
quality loop.  The BGRA→RGBA conversion, the resize and the JPEG encoder are
absorbed into the oracle `enc` (they only determine the bytes `enc` yields at
each quality); the always-true `rgba_data.len()` and `ImageBuffer::from_raw`
checks of lines 465-475 are omitted. -/
def encode_frame (enc : Nat → Option (List Nat)) (bgraLen width height : Nat)
    (region : Option CaptureRegion) : Option (List Nat) :=
  if bgraLen < frameStride width * height then none
  else
    let c := cropParams region width height
    if c.2.2.1 = 0 ∨ c.2.2.2 = 0 then none
    else qualityLoop enc (scaleQuality (c.2.2.1 * c.2.2.2)).2

/-! ## H.264 encoder state machine (`h264_encoder.rs`) -/

/-- `((w + 1) & !1).max(2)` of `h264_encoder.rs` lines 18-19 and 45-46:
round up to the nearest even number, at least 2. -/
def alignedDim (w : Nat) : Nat := max (2 * ((w + 1) / 2)) 2

/-- The mutable state of `H264Encoder` (`h264_encoder.rs` lines 6-12).
`codecForcedIntra` models the inner `openh264` encoder by its documented
contract: `force_intra_frame` marks the next encoded frame, which is then
emitted as an intra (IDR) frame; the flag is cleared by that encode. -/
structure H264EncoderState where
  width : Nat
  height : Nat
  frameCount : Nat
  keyframeInterval : Nat
  codecForcedIntra : Bool
  deriving DecidableEq

/-- `H264Encoder::new` (`h264_encoder.rs` lines 16-39): aligned dimensions,
`frame_count = 0`, `keyframe_interval = 15`, a fresh codec. -/
def H264EncoderState.new (width height : Nat) : H264EncoderState :=
  ⟨alignedDim width, alignedDim height, 0, 15, false⟩

/-- `H264Encoder::force_keyframe` (`h264_encoder.rs` lines 131-137). -/
def H264EncoderState.force_keyframe (st : H264EncoderState) : H264EncoderState :=
  { st with codecForcedIntra := true }

/-- `H264Encoder::encode_bgra` (`h264_encoder.rs` lines 43-128) as a state
transformer.  Returns the new state and `some intra` when a frame was
encoded (`intra` = the frame is an IDR frame, per the modelled codec
contract), `none` on the BGRA size-mismatch error.  Note the rebuild on a
dimension change happens before the size check, so the state can change even
when the call errors, exactly as in the source. -/
def H264EncoderState.encode_bgra (st : H264EncoderState)
    (bgraLen width height : Nat) : H264EncoderState × Option Bool :=
  let aw := alignedDim width
  let ah := alignedDim height
  let st1 : H264EncoderState :=
    if aw ≠ st.width ∨ ah ≠ st.height then
      ⟨aw, ah, 0, st.keyframeInterval, false⟩
    else st
  if bgraLen ≠ width * height * 4 then (st1, none)
  else
    let isKeyframe := st1.frameCount = 0 ∨ st1.frameCount % st1.keyframeInterval = 0
    let intra := st1.codecForcedIntra || decide isKeyframe
    ({ st1 with codecForcedIntra := false, frameCount := st1.frameCount + 1 },
     some intra)

/-- The global state of the data-channel H.264 path (`webrtc_screen.rs` lines
34-45): the `FORCE_KEYFRAME` atomic and the lazily created `H264_ENCODER`. -/
structure H264Pipeline where
  forceKeyframe : Bool
  encoder : Option H264EncoderState
  deriving DecidableEq

/-- Initial values of the `FORCE_KEYFRAME` and `H264_ENCODER` statics. -/
def initialPipeline : H264Pipeline := ⟨false, none⟩

/-- `request_keyframe` (`webrtc_screen.rs` lines 48-51), installed as the
data channel's `on_open` handler (lines 118-123): the open event sets the
force flag consumed by the next encode. -/
def dataChannelOnOpen (p : H264Pipeline) : H264Pipeline :=
  { p with forceKeyframe := true }

/-- `encode_frame_h264` (`webrtc_screen.rs` lines 576-655) as a state
transformer.  `codecOut` is the bitstream the `openh264` codec produces for
this frame (oracle input); the result carries the intra flag of the encoded
frame together with the emitted packets.  Encoder creation (lines 580-592)
is modelled as always succeeding; `FORCE_KEYFRAME.swap(false)` consumes the
flag unconditionally. -/
def encode_frame_h264 (pipe : H264Pipeline) (codecOut : List Nat)
    (bgraLen width height frameCount : Nat) :
    H264Pipeline × Option (Bool × List (List Nat)) :=
  let enc0 := match pipe.encoder with
    | some e => e
    | none => H264EncoderState.new width height
  let enc1 := if pipe.forceKeyframe then enc0.force_keyframe else enc0
  let res := enc1.encode_bgra bgraLen width height
  match res.2 with
  | none => (⟨false, some res.1⟩, none)
  | some intra =>
      (⟨false, some res.1⟩, some (intra, packetizeH264 codecOut frameCount))

/-! ## Mode dispatch (`webrtc_screen.rs`, `encode_frame_auto`, lines 657-715) -/

/-- `EncodingMode` (`webrtc_screen.rs` lines 28-32). -/
inductive EncodingMode
  | Jpeg
  | H264
  deriving DecidableEq

/-- The initial (and, since `set_encoding_mode` is never called anywhere in
the repository, permanent) value of the `ENCODING_MODE` static,
`webrtc_screen.rs` lines 40-42. -/
def initialEncodingMode : EncodingMode := .Jpeg

/-- The number of BGRA bytes `encode_frame_auto` extracts for the crop
(lines 702-710): a row is copied only when it lies inside the buffer. -/
def extractedBgraLen (bgraLen stride cx cy cw ch : Nat) : Nat :=
  ((List.range ch).filter
    fun i => (cy + i) * stride + cx * 4 + cw * 4 ≤ bgraLen).length * (cw * 4)

/-- `encode_frame_auto` (`webrtc_screen.rs` lines 657-715): dispatch on the
encoding mode.  JPEG: `encode_frame`, one `0x00`-tagged packet.  H.264: crop
clamp, zero-area rejection, BGRA extraction, then the stateful
`encode_frame_h264`.  `jpegEnc` and `codecOut` abstract the two codecs as in
`encode_frame` / `encode_frame_h264`. -/
def encode_frame_auto (mode : EncodingMode) (pipe : H264Pipeline)
    (jpegEnc : Nat → Option (List Nat)) (codecOut : List Nat)
    (bgraLen width height : Nat) (region : Option CaptureRegion)
    (frameCount : Nat) : H264Pipeline × Option (List (List Nat)) :=
  match mode with
  | .Jpeg =>
      (pipe, (encode_frame jpegEnc bgraLen width height region).map
        fun data => [0x00 :: data])
  | .H264 =>
      let c := cropParams region width height
      if c.2.2.1 = 0 ∨ c.2.2.2 = 0 then (pipe, none)
      else
        let extracted := extractedBgraLen bgraLen (frameStride width)
          c.1 c.2.1 c.2.2.1 c.2.2.2
        let r := encode_frame_h264 pipe codecOut extracted c.2.2.1 c.2.2.2
          frameCount
        (r.1, r.2.map Prod.snd)

/-! ## Reliable-path crop (`screen_capture.rs`, `start_capture`,
lines 139-159) -/

/-- Rust `f as u32` on a float value: saturate negatives to `0` and values
above `u32::MAX` to `u32::MAX`, truncating the fraction. -/
def f32ToU32 (v : Int) : Nat := if v < 0 then 0 else min v.toNat (2 ^ 32 - 1)

/-- The crop-or-full-screen selection of the WebSocket capture thread
(`screen_capture.rs` lines 139-159), reduced to the crop rectangle it uses:
region coordinates are scaled to native pixels and clamped to the captured
image; a crop with zero width or height falls back to the full image.
`sf` models the monitor scale factor; it is taken to be a natural number
with all products small enough (< 2^24) that the source's `f32` arithmetic
is exact, which covers the 1x and 2x displays the code targets. -/
def reliableCropSelect (region : Option CaptureRegion) (capW capH sf : Nat) :
    Nat × Nat × Nat × Nat :=
  match region with
  | none => (0, 0, capW, capH)
  | some r =>
      let cx := min (f32ToU32 (r.x * sf)) capW
      let cy := min (f32ToU32 (r.y * sf)) capH
      let cw := min (f32ToU32 (r.width * sf)) (capW - cx)
      let ch := min (f32ToU32 (r.height * sf)) (capH - cy)
      if 0 < cw ∧ 0 < ch then (cx, cy, cw, ch) else (0, 0, capW, capH)

/-! ## Session loop (`lib.rs`, `handle_connection`, lines 286-873) -/

/-- Messages the host can put on the wire that matter to the claims:
binary frame packets, `auth_response`, `command_list`, plus the creation of
an Approval Request (lines 402-418) recorded as an observable effect. -/
inductive SOutput
  | binaryFrame
  | authResponse (success : Bool)
  | commandList
  | approvalRequest
  deriving DecidableEq

/-- The per-connection mutable state of `handle_connection`:
`authenticated` (line 303), `screen_sharing` (line 304), `frame_rx`
subscription (line 305, tracked as a Bool), and whether one of the `break`
paths has ended the loop. -/
structure SessionState where
  authenticated : Bool
  screenSharing : Bool
  frameRx : Bool
  closed : Bool
  deriving DecidableEq

/-- State at the top of the `handle_connection` loop (lines 303-305). -/
def initialSession : SessionState := ⟨false, false, false, false⟩

/-- One arrival at the `tokio::select!` loop: a frame from the broadcast, a
control message (`auth` carries the token-comparison result, the
`is_external` flag and the approval decision the one-shot channel will
deliver), or the end of the socket (read error / EOF / close frame). -/
inductive SessionEvent
  | frameReady
  | msgAuth (tokenValid isExternal approved : Bool)
  | msgStartScreenShare
  | msgStopScreenShare
  | msgOther
  | connectionClosed
  deriving DecidableEq

/-- One iteration of the `handle_connection` loop (lines 313-868).  Frames
are forwarded only when `screen_sharing` gates the select branch and
`frame_rx` is subscribed (lines 315-329).  `auth` (lines 369-458): invalid
token answers `success:false` and nothing else; `is_external` auto-approves;
otherwise an Approval Request is created and the one-shot decision is
awaited.  `start_screen_share` / `stop_screen_share` (lines 504-514) require
`authenticated`.  All other messages leave the state of interest unchanged.
After a `break` the loop body no longer runs. -/
def sessionStep (s : SessionState) (e : SessionEvent) :
    SessionState × List SOutput :=
  if s.closed then (s, []) else
  match e with
  | .frameReady =>
      if s.screenSharing && s.frameRx then (s, [.binaryFrame]) else (s, [])
  | .msgAuth tokenValid isExternal approved =>
      if !tokenValid then (s, [.authResponse false])
      else if isExternal then
        ({ s with authenticated := true }, [.authResponse true, .commandList])
      else if approved then
        ({ s with authenticated := true },
         [.approvalRequest, .authResponse true, .commandList])
      else (s, [.approvalRequest, .authResponse false])
  | .msgStartScreenShare =>
      if s.authenticated then
        ({ s with screenSharing := true, frameRx := true }, [])
      else (s, [])
  | .msgStopScreenShare =>
      if s.authenticated then
        ({ s with screenSharing := false, frameRx := false }, [])
      else (s, [])
  | .msgOther => (s, [])
  | .connectionClosed => ({ s with closed := true }, [])

/-- Run the session loop over a list of events. -/
def runSession (s : SessionState) : List SessionEvent → SessionState
  | [] => s
  | e :: rest => runSession (sessionStep s e).1 rest

/-- The session state just before the `k`-th event is processed. -/
def sessionStateAt (evs : List SessionEvent) (k : Nat) : SessionState :=
  runSession initialSession (evs.take k)

/-- The outputs the `k`-th event produces. -/
def sessionOutputsAt (evs : List SessionEvent) (k : Nat) : List SOutput :=
  (sessionStep (sessionStateAt evs k) (evs.getD k .msgOther)).2

/-- An `auth` arrival that succeeds: valid token, then user approval or the
`is_external` auto-approval. -/
def isSuccessfulAuth : SessionEvent → Bool
  | .msgAuth tokenValid isExternal approved => tokenValid && (isExternal || approved)
  | _ => false

/-! ## Supporting lemmas: chunking and the packetizer -/

theorem chunksOfAux_flatten (n : Nat) (hn : 0 < n) :
    ∀ fuel l, l.length ≤ fuel → (chunksOfAux n fuel l).flatten = l := by
  intro fuel
  induction fuel with
  | zero =>
      intro l hl
      have : l = [] := List.eq_nil_of_length_eq_zero (Nat.le_zero.mp hl)
      simp [this, chunksOfAux]
  | succ fuel ih =>
      intro l hl
      cases l with
      | nil => simp [chunksOfAux]
      | cons a t =>
          simp only [chunksOfAux, List.flatten_cons]
          rw [ih (List.drop n (a :: t))]
          · exact List.take_append_drop n (a :: t)
          · rw [List.length_drop]
            simp only [List.length_cons] at hl ⊢
            omega

theorem chunksOf_flatten (n : Nat) (hn : 0 < n) (l : List Nat) :
    (chunksOf n l).flatten = l :=
  chunksOfAux_flatten n hn l.length l le_rfl

theorem chunksOfAux_length (n : Nat) (hn : 0 < n) :
    ∀ fuel l, l.length ≤ fuel →
      (chunksOfAux n fuel l).length = (l.length + n - 1) / n := by
  intro fuel
  induction fuel with
  | zero =>
      intro l hl
      have : l = [] := List.eq_nil_of_length_eq_zero (Nat.le_zero.mp hl)
      subst this
      simp only [chunksOfAux, List.length_nil, Nat.zero_add]
      exact (Nat.div_eq_of_lt (by omega)).symm
  | succ fuel ih =>
      intro l hl
      cases l with
      | nil =>
          simp only [chunksOfAux, List.length_nil, Nat.zero_add]
          exact (Nat.div_eq_of_lt (by omega)).symm
      | cons a t =>
          simp only [chunksOfAux, List.length_cons]
          rw [ih (List.drop n (a :: t))
              (by rw [List.length_drop]; simp only [List.length_cons] at hl ⊢; omega)]
          rw [List.length_drop]
          simp only [List.length_cons]
          rcases Nat.lt_or_ge n (t.length + 1) with hlt | hge
          · have h1 : t.length + 1 - n + n - 1 = t.length + 1 - n - 1 + n := by omega
            have h2 : t.length + 1 + n - 1 = t.length + 1 - n - 1 + n + n := by omega
            rw [h1, h2]
            simp only [Nat.add_div_right _ hn]
          · have h1 : t.length + 1 - n = 0 := by omega
            rw [h1]
            have h2 : (0 + n - 1) / n = 0 := Nat.div_eq_of_lt (by omega)
            rw [h2, @Nat.div_eq_of_lt_le 1 n (t.length + 1 + n - 1) (by omega)
              (by omega)]

theorem chunksOf_length (n : Nat) (hn : 0 < n) (l : List Nat) :
    (chunksOf n l).length = (l.length + n - 1) / n :=
  chunksOfAux_length n hn l.length l le_rfl

theorem chunksOfAux_mem_length (n : Nat) :
    ∀ fuel l c, c ∈ chunksOfAux n fuel l → c.length ≤ n := by
  intro fuel
  induction fuel with
  | zero => intro l c hc; simp [chunksOfAux] at hc
  | succ fuel ih =>
      intro l c hc
      cases l with
      | nil => simp [chunksOfAux] at hc
      | cons a t =>
          simp only [chunksOfAux, List.mem_cons] at hc
          rcases hc with rfl | hc
          · rw [List.length_take]; omega
          · exact ih _ _ hc

theorem chunksOf_mem_length (n : Nat) (l c : List Nat)
    (hc : c ∈ chunksOf n l) : c.length ≤ n :=
  chunksOfAux_mem_length n l.length l c hc

/-- Every packet `encode_frame_h264` hands to the data channel carries at
most `maxPacketSize` payload bytes plus a 1-byte tag and, for fragments, a
4-byte header. -/
theorem packetizeH264_length_le (data : List Nat) (fc : Nat) :
    ∀ p ∈ packetizeH264 data fc, p.length ≤ maxPacketSize + 5 := by
  intro p hp
  unfold packetizeH264 at hp
  split at hp
  · simp at hp
  · split at hp
    · next hle =>
        simp only [List.mem_singleton] at hp
        subst hp
        simp only [List.length_cons]
        unfold maxPacketSize at hle ⊢
        omega
    · simp only [List.mem_map] at hp
      obtain ⟨⟨i, c⟩, hmem, rfl⟩ := hp
      simp only [List.length_cons]
      have hc : c ∈ chunksOf maxPacketSize data := by
        have := List.enum_map_snd (chunksOf maxPacketSize data)
        rw [← this]
        exact List.mem_map.mpr ⟨(i, c), hmem, rfl⟩
      have := chunksOf_mem_length maxPacketSize data c hc
      omega

/-! ## Supporting lemmas: the quality-reduction loop -/

/-- Success characterization of the quality loop: the returned bytes fit in
63 KiB and were produced at some quality `q - 5k`; every earlier quality in
the 5-point descent was above the drop threshold and produced oversize
output. -/
theorem qualityLoop_some (enc : Nat → Option (List Nat)) :
    ∀ q data, qualityLoop enc q = some data →
      data.length ≤ maxStillBytes ∧
      ∃ k, enc (q - 5 * k) = some data ∧
        ∀ j < k, 10 < q - 5 * j ∧
          ∃ d, enc (q - 5 * j) = some d ∧ maxStillBytes < d.length := by
  intro q
  induction q using Nat.strong_induction_on with
  | _ q ih =>
    intro data h
    rw [qualityLoop] at h
    split at h
    · exact absurd h (by simp)
    · next d henc =>
      by_cases hfit : d.length ≤ maxStillBytes
      · rw [if_pos hfit] at h
        obtain rfl : d = data := by injection h
        refine ⟨hfit, 0, ?_, by omega⟩
        simpa using henc
      · rw [if_neg hfit] at h
        split at h
        · exact absurd h (by simp)
        · next hq =>
            obtain ⟨hb, k, hk, hprev⟩ := ih (q - 5) (by omega) data h
            refine ⟨hb, k + 1, ?_, ?_⟩
            · have : q - 5 * (k + 1) = q - 5 - 5 * k := by omega
              rw [this]; exact hk
            · intro j hj
              cases j with
              | zero =>
                  refine ⟨by omega, d, by simpa using henc, by omega⟩
              | succ j =>
                  have hj' : j < k := by omega
                  obtain ⟨h10, d', hd', hlen⟩ := hprev j hj'
                  have : q - 5 * (j + 1) = q - 5 - 5 * j := by omega
                  rw [this]
                  exact ⟨by omega, d', hd', hlen⟩

/-- Drop characterization: when every quality in the 5-point descent yields
oversize output (or fails), the frame is dropped. -/
theorem qualityLoop_none (enc : Nat → Option (List Nat)) :
    ∀ q, (∀ j d, enc (q - 5 * j) = some d → maxStillBytes < d.length) →
      qualityLoop enc q = none := by
  intro q
  induction q using Nat.strong_induction_on with
  | _ q ih =>
    intro hover
    rw [qualityLoop]
    rcases henc : enc q with _ | d
    · simp [henc]
    · simp only [henc]
      have hd : maxStillBytes < d.length := by
        have := hover 0 d (by simpa using henc)
        simpa using this
      rw [if_neg (by omega)]
      split
      · rfl
      · next hq =>
          apply ih (q - 5) (by omega)
          intro j d' hd'
          apply hover (j + 1) d'
          have : q - 5 * (j + 1) = q - 5 - 5 * j := by omega
          rw [this]; exact hd'

/-- Fuel `q + 1` always suffices: the fuelled loop never reports fuel
exhaustion and agrees with the loop itself. -/
theorem qualityLoopF_eq (enc : Nat → Option (List Nat)) :
    ∀ q fuel, q < fuel → qualityLoopF enc fuel q = some (qualityLoop enc q) := by
  intro q
  induction q using Nat.strong_induction_on with
  | _ q ih =>
    intro fuel hfuel
    cases fuel with
    | zero => omega
    | succ fuel =>
        rw [qualityLoop]
        simp only [qualityLoopF]
        rcases henc : enc q with _ | d
        · simp [henc]
        · simp only [henc]
          by_cases hfit : d.length ≤ maxStillBytes
          · rw [if_pos hfit, if_pos hfit]
          · rw [if_neg hfit, if_neg hfit]
            by_cases hq : q ≤ 10
            · simp [hq]
            · rw [if_neg hq]
              simp only [hq, dite_false]
              exact ih (q - 5) (by omega) fuel (by omega)

/-! ## Supporting lemmas: the session loop -/

theorem runSession_append (l1 l2 : List SessionEvent) :
    ∀ s, runSession s (l1 ++ l2) = runSession (runSession s l1) l2 := by
  induction l1 with
  | nil => intro s; rfl
  | cons e t ih => intro s; simp only [List.cons_append, runSession]; exact ih _

theorem sessionStateAt_succ (evs : List SessionEvent) (k : Nat)
    (hk : k < evs.length) :
    sessionStateAt evs (k + 1) =
      (sessionStep (sessionStateAt evs k) (evs.getD k .msgOther)).1 := by
  unfold sessionStateAt
  rw [List.take_succ, runSession_append]
  rw [List.getElem?_eq_getElem hk]
  simp only [Option.toList_some, List.getD_eq_getElem?_getD,
    List.getElem?_eq_getElem hk, Option.getD_some]
  rfl

theorem sessionStateAt_stable (evs : List SessionEvent) (k : Nat)
    (hk : evs.length ≤ k) :
    sessionStateAt evs (k + 1) = sessionStateAt evs k := by
  unfold sessionStateAt
  rw [List.take_of_length_le hk, List.take_of_length_le (by omega)]

/-- The only step that turns `authenticated` on is a successful `auth`. -/
theorem sessionStep_auth_origin (s : SessionState) (e : SessionEvent)
    (h : (sessionStep s e).1.authenticated = true)
    (hs : s.authenticated = false) : isSuccessfulAuth e = true := by
  obtain ⟨a, sh, rx, cl⟩ := s
  cases e with
  | msgAuth tokenValid isExternal approved =>
      cases tokenValid <;> cases isExternal <;> cases approved <;>
        cases a <;> cases cl <;> simp_all [sessionStep, isSuccessfulAuth]
  | frameReady =>
      cases a <;> cases cl <;> cases sh <;> cases rx <;>
        simp_all [sessionStep]
  | msgStartScreenShare =>
      cases a <;> cases cl <;> simp_all [sessionStep]
  | msgStopScreenShare =>
      cases a <;> cases cl <;> simp_all [sessionStep]
  | msgOther => cases cl <;> simp_all [sessionStep]
  | connectionClosed => cases cl <;> simp_all [sessionStep]

/-- The only step that turns `screenSharing` on is a `start_screen_share`
processed while authenticated (and before any `break`). -/
theorem sessionStep_sharing_origin (s : SessionState) (e : SessionEvent)
    (h : (sessionStep s e).1.screenSharing = true)
    (hs : s.screenSharing = false) :
    e = .msgStartScreenShare ∧ s.authenticated = true := by
  obtain ⟨a, sh, rx, cl⟩ := s
  cases e with
  | msgAuth tokenValid isExternal approved =>
      cases tokenValid <;> cases isExternal <;> cases approved <;>
        cases sh <;> cases cl <;> simp_all [sessionStep]
  | frameReady =>
      cases sh <;> cases cl <;> cases rx <;> simp_all [sessionStep]
  | msgStartScreenShare =>
      cases a <;> cases sh <;> cases cl <;> simp_all [sessionStep]
  | msgStopScreenShare =>
      cases a <;> cases sh <;> cases cl <;> simp_all [sessionStep]
  | msgOther => cases sh <;> cases cl <;> simp_all [sessionStep]
  | connectionClosed => cases sh <;> cases cl <;> simp_all [sessionStep]

/-- A step emits a binary frame packet only when the session is already
screen-sharing (with a live subscription and no prior `break`). -/
theorem sessionStep_binaryFrame (s : SessionState) (e : SessionEvent)
    (h : SOutput.binaryFrame ∈ (sessionStep s e).2) :
    s.screenSharing = true ∧ s.frameRx = true ∧ s.closed = false := by
  obtain ⟨a, sh, rx, cl⟩ := s
  cases e with
  | msgAuth tokenValid isExternal approved =>
      cases tokenValid <;> cases isExternal <;> cases approved <;>
        cases cl <;> simp_all [sessionStep]
  | frameReady =>
      cases sh <;> cases cl <;> cases rx <;> simp_all [sessionStep]
  | msgStartScreenShare =>
      cases a <;> cases cl <;> simp_all [sessionStep]
  | msgStopScreenShare =>
      cases a <;> cases cl <;> simp_all [sessionStep]
  | msgOther => cases cl <;> simp_all [sessionStep]
  | connectionClosed => cases cl <;> simp_all [sessionStep]

/-- Whenever the session is authenticated, some earlier event was a
successful `auth`. -/
theorem sessionAuth_origin (evs : List SessionEvent) :
    ∀ k, (sessionStateAt evs k).authenticated = true →
      ∃ i, i < k ∧ isSuccessfulAuth (evs.getD i .msgOther) = true := by
  intro k
  induction k with
  | zero =>
      intro h
      simp [sessionStateAt, runSession, initialSession] at h
  | succ k ih =>
      intro h
      by_cases hk : k < evs.length
      · rw [sessionStateAt_succ evs k hk] at h
        by_cases ha : (sessionStateAt evs k).authenticated = true
        · obtain ⟨i, hi, hsa⟩ := ih ha
          exact ⟨i, by omega, hsa⟩
        · exact ⟨k, by omega,
            sessionStep_auth_origin _ _ h (by simpa using ha)⟩
      · rw [sessionStateAt_stable evs k (by omega)] at h
        obtain ⟨i, hi, hsa⟩ := ih h
        exact ⟨i, by omega, hsa⟩

/-- Whenever the session is screen-sharing, some earlier event was a
`start_screen_share` processed in the authenticated state. -/
theorem sessionSharing_origin (evs : List SessionEvent) :
    ∀ k, (sessionStateAt evs k).screenSharing = true →
      ∃ j, j < k ∧ evs.getD j .msgOther = .msgStartScreenShare ∧
        (sessionStateAt evs j).authenticated = true := by
  intro k
  induction k with
  | zero =>
      intro h
      simp [sessionStateAt, runSession, initialSession] at h
  | succ k ih =>
      intro h
      by_cases hk : k < evs.length
      · rw [sessionStateAt_succ evs k hk] at h
        by_cases hs : (sessionStateAt evs k).screenSharing = true
        · obtain ⟨j, hj, he, ha⟩ := ih hs
          exact ⟨j, by omega, he, ha⟩
        · obtain ⟨he, ha⟩ :=
            sessionStep_sharing_origin _ _ h (by simpa using hs)
          exact ⟨k, by omega, he, ha⟩
      · rw [sessionStateAt_stable evs k (by omega)] at h
        obtain ⟨j, hj, he, ha⟩ := ih h
        exact ⟨j, by omega, he, ha⟩

/-! ## Supporting lemmas: the H.264 pipeline -/

/-- The encoder `encode_frame_h264` works on: the stored one, or a fresh one
at the frame's dimensions. -/
def currentEncoder (pipe : H264Pipeline) (w h : Nat) : H264EncoderState :=
  match pipe.encoder with
  | some e => e
  | none => H264EncoderState.new w h

/-- The encoder after the `FORCE_KEYFRAME` flag has been consumed. -/
def armedEncoder (pipe : H264Pipeline) (w h : Nat) : H264EncoderState :=
  if pipe.forceKeyframe then (currentEncoder pipe w h).force_keyframe
  else currentEncoder pipe w h

theorem encode_frame_h264_eq (pipe : H264Pipeline) (codecOut : List Nat)
    (bgraLen w h fc : Nat) :
    encode_frame_h264 pipe codecOut bgraLen w h fc =
      (⟨false, some ((armedEncoder pipe w h).encode_bgra bgraLen w h).1⟩,
       ((armedEncoder pipe w h).encode_bgra bgraLen w h).2.map
         fun intra => (intra, packetizeH264 codecOut fc)) := by
  simp only [encode_frame_h264, armedEncoder, currentEncoder]
  rcases hres : ((if pipe.forceKeyframe then
      (match pipe.encoder with
        | some e => e
        | none => H264EncoderState.new w h).force_keyframe
    else
      (match pipe.encoder with
        | some e => e
        | none => H264EncoderState.new w h)).encode_bgra bgraLen w h).2
    with _ | intra <;> simp [hres]

/-- What an emitted frame's intra flag satisfies, stated on `encode_bgra`:
a pending codec force, a zero frame count and a frame count on the keyframe
interval each force intra; a dimension change rebuilds, emits intra and
leaves the counter at 1. -/
theorem encode_bgra_some (st : H264EncoderState) (bgraLen w h : Nat)
    (st' : H264EncoderState) (intra : Bool)
    (he : st.encode_bgra bgraLen w h = (st', some intra)) :
    (st.codecForcedIntra = true → intra = true) ∧
    (st.frameCount = 0 → intra = true) ∧
    (st.frameCount % st.keyframeInterval = 0 → intra = true) ∧
    (alignedDim w ≠ st.width ∨ alignedDim h ≠ st.height →
      intra = true ∧ st'.frameCount = 1 ∧ st'.width = alignedDim w ∧
        st'.height = alignedDim h) := by
  simp only [H264EncoderState.encode_bgra] at he
  by_cases hdim : alignedDim w ≠ st.width ∨ alignedDim h ≠ st.height
  · rw [if_pos hdim] at he
    by_cases hsz : bgraLen ≠ w * h * 4
    · rw [if_pos hsz] at he
      exact absurd (congrArg Prod.snd he) (by simp)
    · rw [if_neg hsz] at he
      have h2 := congrArg Prod.snd he
      have h1 := congrArg Prod.fst he
      simp only at h1 h2
      obtain rfl : intra = true := by
        have := h2.symm
        simp only [Option.some.injEq] at this
        simp [this]
      refine ⟨fun _ => rfl, fun _ => rfl, fun _ => rfl, fun _ => ⟨rfl, ?_, ?_, ?_⟩⟩
        <;> simp [← h1]
  · rw [if_neg hdim] at he
    by_cases hsz : bgraLen ≠ w * h * 4
    · rw [if_pos hsz] at he
      exact absurd (congrArg Prod.snd he) (by simp)
    · rw [if_neg hsz] at he
      have h2 := congrArg Prod.snd he
      simp only [Option.some.injEq] at h2
      refine ⟨?_, ?_, ?_, fun hd => absurd hd hdim⟩
      · intro hforce
        rw [← h2, hforce]
        simp
      · intro h0
        rw [← h2]
        simp [h0]
      · intro hmod
        rw [← h2]
        simp [hmod]

/-! ## Claims -/

/-- C1 counterexample: the claimed 15 KiB bound counts the 1-byte type tag
and the headers, but the source bounds only the payload slice.  A video
frame of exactly 15·1024 codec bytes is emitted as one packet of
15·1024 + 1 bytes, and a still frame at the 63 KiB acceptance bound is
emitted as one packet of 63·1024 + 1 bytes — both over 15·1024. -/
theorem C1_unreliable_mtu_cex :
    (packetizeH264 (List.replicate (15 * 1024) 0) 7 =
        [0x01 :: List.replicate (15 * 1024) 0] ∧
      (0x01 :: List.replicate (15 * 1024) 0).length = 15 * 1024 + 1) ∧
    ((encode_frame_auto .Jpeg initialPipeline
        (fun _ => some (List.replicate (63 * 1024) 0)) [] 256 2 2 none 0).2 =
        some [0x00 :: List.replicate (63 * 1024) 0] ∧
      (0x00 :: List.replicate (63 * 1024) 0).length = 63 * 1024 + 1) := by
  refine ⟨⟨?_, by rw [List.length_cons, List.length_replicate]⟩,
    ⟨?_, by rw [List.length_cons, List.length_replicate]⟩⟩
  · unfold packetizeH264
    rw [if_neg (by rw [List.length_replicate]; norm_num),
      if_pos (by rw [List.length_replicate]; norm_num [maxPacketSize])]
  · have hef : encode_frame (fun _ => some (List.replicate (63 * 1024) 0))
        256 2 2 none = some (List.replicate (63 * 1024) 0) := by
      unfold encode_frame
      rw [if_neg (by norm_num [frameStride])]
      simp only [cropParams]
      rw [if_neg (by norm_num)]
      rw [qualityLoop]
      simp only [scaleQuality]
      norm_num [maxStillBytes, List.length_replicate]
    simp only [encode_frame_auto, hef]
    rfl

/-- C1 amended: every H.264 packet handed to the unreliable channel has a
payload slice of at most 15·1024 bytes, hence a total length of at most
15·1024 + 5 bytes (15·1024 + 1 for a single-tag packet), and every
still-image packet has at most 63·1024 + 1 bytes; the 15·1024 budget bounds
the payload, not the tagged packet. -/
theorem C1_unreliable_mtu_amended :
    (∀ data fc, ∀ p ∈ packetizeH264 data fc, p.length ≤ 15 * 1024 + 5) ∧
    (∀ data fc, data.length ≤ maxPacketSize →
      ∀ p ∈ packetizeH264 data fc, p.length ≤ 15 * 1024 + 1) ∧
    (∀ enc bgraLen width height region data,
      encode_frame enc bgraLen width height region = some data →
      (0x00 :: data).length ≤ 63 * 1024 + 1) := by
  refine ⟨fun data fc => packetizeH264_length_le data fc, ?_, ?_⟩
  · intro data fc hle p hp
    unfold packetizeH264 at hp
    by_cases h0 : data.length = 0
    · rw [if_pos h0] at hp
      simp at hp
    · rw [if_neg h0, if_pos hle] at hp
      simp only [List.mem_singleton] at hp
      subst hp
      simp only [List.length_cons]
      unfold maxPacketSize at hle
      omega
  · intro enc bgraLen width height region data h
    simp only [encode_frame] at h
    split at h
    · exact absurd h (by simp)
    · split at h
      · exact absurd h (by simp)
      · have := (qualityLoop_some enc _ data h).1
        simp only [List.length_cons]
        unfold maxStillBytes at this
        omega

/-- C7: the packetize–reassemble round trip.  A frame at or below the
15 KiB budget becomes one `0x01` packet carrying exactly the frame bytes.
A larger frame (up to 64 fragments) becomes `⌈len / 15360⌉ ≥ 2` fragments,
all tagged `0x02`, all carrying the same `total` and the same big-endian
`frame_id = frame_count mod 2^16`, with the index bytes enumerating
`0..total-1` in order, and concatenating the payloads in index order
reconstructs the frame bytes. -/
theorem C7_packetize_roundtrip (data : List Nat) (fc : Nat)
    (hpos : 0 < data.length) (hbound : data.length ≤ 64 * maxPacketSize) :
    (data.length ≤ maxPacketSize → packetizeH264 data fc = [0x01 :: data]) ∧
    (maxPacketSize < data.length →
      2 ≤ fragTotal data.length ∧
      (packetizeH264 data fc).length = fragTotal data.length ∧
      (∀ p ∈ packetizeH264 data fc,
        p.head? = some 0x02 ∧
        p.getD 2 0 = fragTotal data.length ∧
        p.getD 3 0 = fc % 65536 / 256 ∧
        p.getD 4 0 = fc % 65536 % 256) ∧
      (packetizeH264 data fc).map (fun p => p.getD 1 0) =
        List.range (fragTotal data.length) ∧
      ((packetizeH264 data fc).map (fun p => p.drop 5)).flatten = data) := by
  have hm : 0 < maxPacketSize := by norm_num [maxPacketSize]
  constructor
  · intro hle
    unfold packetizeH264
    rw [if_neg (by omega), if_pos hle]
  · intro hbig
    have hfrag : packetizeH264 data fc =
        (chunksOf maxPacketSize data).enum.map fun p =>
          0x02 :: p.1 % 256 :: (fragTotal data.length % 256) ::
            fc % 65536 / 256 :: fc % 65536 % 256 :: p.2 := by
      unfold packetizeH264
      rw [if_neg (by omega), if_neg (by omega)]
      rfl
    have htot_le : fragTotal data.length ≤ 64 := by
      unfold fragTotal maxPacketSize at *
      omega
    have htot2 : 2 ≤ fragTotal data.length := by
      unfold fragTotal maxPacketSize at *
      omega
    have htotmod : fragTotal data.length % 256 = fragTotal data.length :=
      Nat.mod_eq_of_lt (by omega)
    have hchlen : (chunksOf maxPacketSize data).length = fragTotal data.length :=
      chunksOf_length maxPacketSize hm data
    refine ⟨htot2, ?_, ?_, ?_, ?_⟩
    · rw [hfrag, List.length_map, List.enum_length, hchlen]
    · intro p hp
      rw [hfrag] at hp
      simp only [List.mem_map] at hp
      obtain ⟨⟨i, c⟩, hmem, rfl⟩ := hp
      refine ⟨rfl, ?_, rfl, rfl⟩
      show List.getD (0x02 :: i % 256 :: (fragTotal data.length % 256) ::
        fc % 65536 / 256 :: fc % 65536 % 256 :: c) 2 0 = fragTotal data.length
      simp only [List.getD_cons_succ, List.getD_cons_zero]
      exact htotmod
    · rw [hfrag, List.map_map]
      have h1 : ((fun p => List.getD p 1 0) ∘ fun p : Nat × List Nat =>
          0x02 :: p.1 % 256 :: (fragTotal data.length % 256) ::
            fc % 65536 / 256 :: fc % 65536 % 256 :: p.2) =
          fun p : Nat × List Nat => p.1 % 256 := rfl
      rw [h1]
      have h2 : (chunksOf maxPacketSize data).enum.map
            (fun p : Nat × List Nat => p.1 % 256) =
          ((chunksOf maxPacketSize data).enum.map Prod.fst).map
            (fun i => i % 256) := by
        rw [List.map_map]
        rfl
      rw [h2, List.enum_map_fst, hchlen]
      have h3 : ∀ i ∈ List.range (fragTotal data.length), i % 256 = id i := by
        intro i hi
        have hi' := List.mem_range.mp hi
        show i % 256 = i
        exact Nat.mod_eq_of_lt (by omega)
      rw [List.map_congr_left h3, List.map_id]
    · rw [hfrag, List.map_map]
      have h1 : ((fun p => List.drop 5 p) ∘ fun p : Nat × List Nat =>
          0x02 :: p.1 % 256 :: (fragTotal data.length % 256) ::
            fc % 65536 / 256 :: fc % 65536 % 256 :: p.2) =
          (Prod.snd : Nat × List Nat → List Nat) := rfl
      rw [h1, List.enum_map_snd, chunksOf_flatten maxPacketSize hm]

/-- C7 witness: a 3-byte frame is one `0x01` packet with the frame bytes as
payload. -/
theorem C7_packetize_roundtrip_witness :
    packetizeH264 [1, 2, 3] 0 = [0x01 :: [1, 2, 3]] :=
  (C7_packetize_roundtrip [1, 2, 3] 0 (by norm_num)
    (by norm_num [maxPacketSize])).1 (by norm_num [maxPacketSize])

/-- C8: the still-image scale / start-quality pair follows the pixel-count
table exactly, `encode_frame` runs the quality loop from the table's start
quality for the cropped pixel count, and the loop lowers the quality in
5-point steps until the output fits in 63 KiB, dropping the frame when the
descent reaches the 10% floor (or the encoder fails) without fitting. -/
theorem C8_adaptive_sizing :
    (∀ pc, (pc ≤ 150000 → scaleQuality pc = (1, 80)) ∧
           (150000 < pc → pc ≤ 300000 → scaleQuality pc = (1, 65)) ∧
           (300000 < pc → pc ≤ 600000 → scaleQuality pc = (2, 70)) ∧
           (600000 < pc → scaleQuality pc = (2, 65))) ∧
    (∀ enc bgraLen width height region cx cy cw ch,
        cropParams region width height = (cx, cy, cw, ch) →
        cw ≠ 0 → ch ≠ 0 → frameStride width * height ≤ bgraLen →
        encode_frame enc bgraLen width height region =
          qualityLoop enc (scaleQuality (cw * ch)).2) ∧
    (∀ enc q data, qualityLoop enc q = some data →
        data.length ≤ maxStillBytes ∧
        ∃ k, enc (q - 5 * k) = some data ∧
          ∀ j < k, 10 < q - 5 * j ∧
            ∃ d, enc (q - 5 * j) = some d ∧ maxStillBytes < d.length) ∧
    (∀ enc q, (∀ j d, enc (q - 5 * j) = some d → maxStillBytes < d.length) →
        qualityLoop enc q = none) := by
  refine ⟨?_, ?_, fun enc q data h => qualityLoop_some enc q data h,
    fun enc q h => qualityLoop_none enc q h⟩
  · intro pc
    unfold scaleQuality
    refine ⟨fun h => ?_, fun h1 h2 => ?_, fun h1 h2 => ?_, fun h => ?_⟩
    · rw [if_pos h]
    · rw [if_neg (by omega), if_pos h2]
    · rw [if_neg (by omega), if_neg (by omega), if_pos h2]
    · rw [if_neg (by omega), if_neg (by omega), if_neg (by omega)]
  · intro enc bgraLen width height region cx cy cw ch hcrop hcw hch hlen
    simp only [encode_frame, hcrop]
    rw [if_neg (by omega)]
    rw [if_neg (by simp [hcw, hch])]

/-- C10: the quality-reduction loop terminates: with fuel `q + 1` the
fuel-indexed loop never exhausts its fuel and agrees with the total
function `qualityLoop`, so `encode_frame` is a total function of its
inputs. -/
theorem C10_quality_loop_terminates :
    ∀ (enc : Nat → Option (List Nat)) (q : Nat),
      qualityLoopF enc (q + 1) q = some (qualityLoop enc q) :=
  fun enc q => qualityLoopF_eq enc q (q + 1) (by omega)

/-- C5 counterexample: the encoding mode is fixed at its initial value
`Jpeg` (`set_encoding_mode` is never invoked anywhere in the repository), so
the first frame packet emitted after the data channel opens carries the
still-image tag `0x00` — it is not a `0x01` / `0x02` video packet. -/
theorem C5_first_packet_cex :
    initialEncodingMode = EncodingMode.Jpeg ∧
    (encode_frame_auto initialEncodingMode initialPipeline
        (fun _ => some [1, 2, 3]) [] 256 2 2 none 0).2 =
      some [[0x00, 1, 2, 3]] ∧
    ¬([0x00, 1, 2, 3].head? = some 0x01) ∧
    ¬([0x00, 1, 2, 3].take 2 = [0x02, 0]) := by
  refine ⟨rfl, ?_, by decide, by decide⟩
  have hef : encode_frame (fun _ => some [1, 2, 3]) 256 2 2 none =
      some [1, 2, 3] := by
    unfold encode_frame
    rw [if_neg (by norm_num [frameStride])]
    simp only [cropParams]
    rw [if_neg (by norm_num)]
    rw [qualityLoop]
    simp only [scaleQuality]
    norm_num [maxStillBytes]
  simp only [initialEncodingMode, encode_frame_auto, hef]
  rfl

/-- C5 amended: in the mode actually in effect (the initial `Jpeg`, never
changed), every packet emitted on the data channel — the first one after the
open event included — carries the still-image tag `0x00`; in `H264` mode the
first packet of a packetized frame is `0x01`-tagged or is `0x02` with index
byte 0, and the force-keyframe flag set by the channel-open handler makes
the next encoded frame intra. -/
theorem C5_first_packet_amended :
    (∀ pipe jpegEnc codecOut bgraLen w h region fc pipe' pkts,
      encode_frame_auto initialEncodingMode pipe jpegEnc codecOut bgraLen w h
          region fc = (pipe', some pkts) →
      ∀ p ∈ pkts, p.head? = some 0x00) ∧
    (∀ (data : List Nat) (fc : Nat) p,
      (packetizeH264 data fc).head? = some p →
      p.head? = some 0x01 ∨ p.take 2 = [0x02, 0]) ∧
    (∀ pipe codecOut bgraLen w h fc pipe' intra pkts,
      encode_frame_h264 (dataChannelOnOpen pipe) codecOut bgraLen w h fc =
        (pipe', some (intra, pkts)) → intra = true) := by
  refine ⟨?_, ?_, ?_⟩
  · intro pipe jpegEnc codecOut bgraLen w h region fc pipe' pkts hauto p hp
    simp only [initialEncodingMode, encode_frame_auto] at hauto
    rcases henc : encode_frame jpegEnc bgraLen w h region with _ | d
    · rw [henc] at hauto
      exact absurd (congrArg Prod.snd hauto) (by simp)
    · rw [henc] at hauto
      have h2 := congrArg Prod.snd hauto
      simp only [Option.map, Option.some.injEq] at h2
      rw [← h2] at hp
      simp only [List.mem_singleton] at hp
      subst hp
      rfl
  · intro data fc p hp
    unfold packetizeH264 at hp
    by_cases h0 : data.length = 0
    · rw [if_pos h0] at hp
      simp at hp
    · rw [if_neg h0] at hp
      by_cases hle : data.length ≤ maxPacketSize
      · rw [if_pos hle] at hp
        simp only [List.head?_cons, Option.some.injEq] at hp
        subst hp
        exact Or.inl rfl
      · rw [if_neg hle] at hp
        cases data with
        | nil => simp at h0
        | cons a t =>
            rw [show chunksOf maxPacketSize (a :: t) =
                (a :: t).take maxPacketSize ::
                  chunksOfAux maxPacketSize t.length
                    ((a :: t).drop maxPacketSize) from rfl] at hp
            simp only [List.enum_cons, List.map_cons, List.head?_cons,
              Option.some.injEq] at hp
            subst hp
            exact Or.inr rfl
  · intro pipe codecOut bgraLen w h fc pipe' intra pkts he
    rw [encode_frame_h264_eq] at he
    have h2 := congrArg Prod.snd he
    simp only at h2
    rcases hres : ((armedEncoder (dataChannelOnOpen pipe) w h).encode_bgra
        bgraLen w h).2 with _ | intra0
    · rw [hres] at h2
      simp at h2
    · rw [hres] at h2
      simp only [Option.map, Option.some.injEq, Prod.mk.injEq] at h2
      obtain ⟨rfl, -⟩ := h2
      have harm : (armedEncoder (dataChannelOnOpen pipe) w h).codecForcedIntra =
          true := by
        simp [armedEncoder, dataChannelOnOpen, H264EncoderState.force_keyframe]
      obtain ⟨st', hbgra⟩ :
          ∃ st', (armedEncoder (dataChannelOnOpen pipe) w h).encode_bgra
            bgraLen w h = (st', some intra0) := by
        refine ⟨((armedEncoder (dataChannelOnOpen pipe) w h).encode_bgra
          bgraLen w h).1, ?_⟩
        rw [← hres]
      exact (encode_bgra_some _ _ _ _ _ _ hbgra).1 harm

/-- C6: the video encoder emits an intra frame whenever the pending
force-keyframe flag is set, or the stored encoder's frame counter is 0 or a
multiple of its keyframe interval (15 on every constructed encoder), or no
encoder exists yet, or the aligned output dimensions changed — the rebuild
resets the counter so the frame after it is intra and leaves the counter at
1; and the data channel's open handler sets the force-keyframe flag. -/
theorem C6_keyframe_policy :
    (∀ w h, (H264EncoderState.new w h).keyframeInterval = 15) ∧
    (∀ p, (dataChannelOnOpen p).forceKeyframe = true) ∧
    (∀ pipe codecOut bgraLen w h fc pipe' intra pkts,
      encode_frame_h264 pipe codecOut bgraLen w h fc =
          (pipe', some (intra, pkts)) →
      (pipe.forceKeyframe = true → intra = true) ∧
      (∀ e, pipe.encoder = some e → e.frameCount = 0 → intra = true) ∧
      (∀ e, pipe.encoder = some e →
        e.frameCount % e.keyframeInterval = 0 → intra = true) ∧
      (pipe.encoder = none → intra = true) ∧
      (∀ e, pipe.encoder = some e →
        alignedDim w ≠ e.width ∨ alignedDim h ≠ e.height →
        intra = true ∧ ∃ e', pipe'.encoder = some e' ∧ e'.frameCount = 1 ∧
          e'.width = alignedDim w ∧ e'.height = alignedDim h)) := by
  refine ⟨fun w h => rfl, fun p => rfl, ?_⟩
  intro pipe codecOut bgraLen w h fc pipe' intra pkts he
  rw [encode_frame_h264_eq] at he
  have h1 := congrArg Prod.fst he
  have h2 := congrArg Prod.snd he
  simp only at h1 h2
  rcases hres : ((armedEncoder pipe w h).encode_bgra bgraLen w h).2
    with _ | intra0
  · rw [hres] at h2
    simp at h2
  · rw [hres] at h2
    simp only [Option.map, Option.some.injEq, Prod.mk.injEq] at h2
    obtain ⟨rfl, -⟩ := h2
    have hbgra : (armedEncoder pipe w h).encode_bgra bgraLen w h =
        (((armedEncoder pipe w h).encode_bgra bgraLen w h).1, some intra0) := by
      rw [← hres]
    have hfacts := encode_bgra_some _ _ _ _ _ _ hbgra
    have hfields : (armedEncoder pipe w h).frameCount =
          (currentEncoder pipe w h).frameCount ∧
        (armedEncoder pipe w h).keyframeInterval =
          (currentEncoder pipe w h).keyframeInterval ∧
        (armedEncoder pipe w h).width = (currentEncoder pipe w h).width ∧
        (armedEncoder pipe w h).height = (currentEncoder pipe w h).height := by
      unfold armedEncoder
      split <;> simp [H264EncoderState.force_keyframe]
    refine ⟨?_, ?_, ?_, ?_, ?_⟩
    · intro hforce
      apply hfacts.1
      unfold armedEncoder
      rw [if_pos hforce]
      simp [H264EncoderState.force_keyframe]
    · intro e hsome h0
      apply hfacts.2.1
      rw [hfields.1]
      unfold currentEncoder
      rw [hsome, h0]
    · intro e hsome hmod
      apply hfacts.2.2.1
      rw [hfields.1, hfields.2.1]
      unfold currentEncoder
      rw [hsome]
      exact hmod
    · intro hnone
      apply hfacts.2.1
      rw [hfields.1]
      unfold currentEncoder
      rw [hnone]
      rfl
    · intro e hsome hdim
      have hd' : alignedDim w ≠ (armedEncoder pipe w h).width ∨
          alignedDim h ≠ (armedEncoder pipe w h).height := by
        rw [hfields.2.2.1, hfields.2.2.2]
        unfold currentEncoder
        rw [hsome]
        exact hdim
      obtain ⟨hintra, hfc, hw, hh⟩ := hfacts.2.2.2 hd'
      refine ⟨hintra, ((armedEncoder pipe w h).encode_bgra bgraLen w h).1,
        ?_, hfc, hw, hh⟩
      rw [← h1]

/-- C9 counterexample: on the data-channel path a crop region entirely
outside the 100×100 screen (x = 200) is clamped to a 1×50 sliver at the
right edge — not to the full screen, although `region ∩ screen` is empty —
and a region whose clamped crop has zero area (width 0) makes `encode_frame`
drop the frame (`none`) instead of producing the full-screen frame the same
oracle yields with no region set. -/
theorem C9_crop_clamping_cex :
    cropParams (some ⟨200, 0, 50, 50, 0, 0, 50, 50, "high"⟩) 100 100 =
      (99, 0, 1, 50) ∧
    cropParams none 100 100 = (0, 0, 100, 100) ∧
    encode_frame (fun _ => some [9]) 51200 100 100
      (some ⟨0, 0, 0, 50, 0, 0, 0, 50, "high"⟩) = none ∧
    encode_frame (fun _ => some [9]) 51200 100 100 none = some [9] := by
  refine ⟨by decide, rfl, ?_, ?_⟩
  · unfold encode_frame
    rw [if_neg (by norm_num [frameStride])]
    rw [if_pos (by decide)]
  · unfold encode_frame
    rw [if_neg (by norm_num [frameStride])]
    simp only [cropParams]
    rw [if_neg (by norm_num)]
    rw [qualityLoop]
    simp only [scaleQuality]
    norm_num [maxStillBytes]

/-- C9 amended: on the reliable path a clamped crop of zero area — in
particular a region scaled past the right or bottom screen edge, or with a
zero dimension — falls back to the full captured image; on the data-channel
path a zero-area clamped crop drops the frame instead, and a region lying
inside the screen is cropped exactly (there the crop equals
`region ∩ screen`). -/
theorem C9_crop_clamping_amended :
    (∀ (r : CaptureRegion) (capW capH sf : Nat),
      f32ToU32 (r.width * (sf : Int)) = 0 ∨
        f32ToU32 (r.height * (sf : Int)) = 0 ∨
        capW ≤ f32ToU32 (r.x * (sf : Int)) ∨
        capH ≤ f32ToU32 (r.y * (sf : Int)) →
      reliableCropSelect (some r) capW capH sf =
        reliableCropSelect none capW capH sf) ∧
    (∀ enc bgraLen width height r cx cy cw ch,
      cropParams (some r) width height = (cx, cy, cw, ch) →
      cw = 0 ∨ ch = 0 →
      encode_frame enc bgraLen width height (some r) = none) ∧
    (∀ (r : CaptureRegion) (width height : Nat),
      0 ≤ r.x → 0 ≤ r.y → 0 < r.width → 0 < r.height →
      r.x + r.width ≤ (width : Int) → r.y + r.height ≤ (height : Int) →
      (width : Int) ≤ 2 ^ 31 → (height : Int) ≤ 2 ^ 31 →
      cropParams (some r) width height =
        (r.x.toNat, r.y.toNat, r.width.toNat, r.height.toNat)) := by
  refine ⟨?_, ?_, ?_⟩
  · intro r capW capH sf hz
    simp only [reliableCropSelect]
    have hneg : ¬(0 < min (f32ToU32 (r.width * (sf : Int)))
          (capW - min (f32ToU32 (r.x * (sf : Int))) capW) ∧
        0 < min (f32ToU32 (r.height * (sf : Int)))
          (capH - min (f32ToU32 (r.y * (sf : Int))) capH)) := by
      rcases hz with h | h | h | h
      · rw [h]
        simp
      · rw [h]
        simp
      · rw [min_eq_right h, Nat.sub_self]
        simp
      · rw [min_eq_right h, Nat.sub_self]
        simp
    rw [if_neg hneg]
  · intro enc bgraLen width height r cx cy cw ch hcrop hz
    simp only [encode_frame, hcrop]
    by_cases h1 : bgraLen < frameStride width * height
    · rw [if_pos h1]
    · rw [if_neg h1, if_pos (by rcases hz with h | h <;> simp [h])]
  · intro r width height hx hy hw hh hxw hyh hwb hhb
    have hux : i32ToUsize r.x = r.x.toNat := by
      unfold i32ToUsize
      rw [Int.emod_eq_of_lt hx (by omega)]
    have huy : i32ToUsize r.y = r.y.toNat := by
      unfold i32ToUsize
      rw [Int.emod_eq_of_lt hy (by omega)]
    have huw : i32ToUsize r.width = r.width.toNat := by
      unfold i32ToUsize
      rw [Int.emod_eq_of_lt (by omega) (by omega)]
    have huh : i32ToUsize r.height = r.height.toNat := by
      unfold i32ToUsize
      rw [Int.emod_eq_of_lt (by omega) (by omega)]
    simp only [cropParams, hux, huy, huw, huh]
    have e1 : min r.x.toNat (width - 1) = r.x.toNat := by omega
    have e2 : min r.y.toNat (height - 1) = r.y.toNat := by omega
    rw [e1, e2]
    have e3 : min r.width.toNat (width - r.x.toNat) = r.width.toNat := by omega
    have e4 : min r.height.toNat (height - r.y.toNat) = r.height.toNat := by
      omega
    rw [e3, e4]

/-- C2: no binary frame packet is sent before the session is authenticated
and approved: whenever a step of the session loop delivers a binary frame,
some earlier event was a successful auth (valid token, then user approval or
the `is_external` auto-approval), and a later, still earlier-than-the-frame
event was a `start_screen_share` processed in the authenticated state. -/
theorem C2_frames_after_auth_and_share (evs : List SessionEvent) (k : Nat)
    (h : SOutput.binaryFrame ∈ sessionOutputsAt evs k) :
    ∃ i j, i < j ∧ j < k ∧
      isSuccessfulAuth (evs.getD i .msgOther) = true ∧
      evs.getD j .msgOther = SessionEvent.msgStartScreenShare ∧
      (sessionStateAt evs j).authenticated = true := by
  unfold sessionOutputsAt at h
  have hb := sessionStep_binaryFrame _ _ h
  obtain ⟨j, hj, he, ha⟩ := sessionSharing_origin evs k hb.1
  obtain ⟨i, hi, hsa⟩ := sessionAuth_origin evs j ha
  exact ⟨i, j, hi, hj, hsa, he, ha⟩

/-- C2 witness: the trace auth–start_screen_share–frame delivers a frame at
step 2, and the theorem recovers the auth at 0 and the start at 1. -/
theorem C2_frames_after_auth_and_share_witness :
    ∃ i j, i < j ∧ j < 2 ∧
      isSuccessfulAuth ([SessionEvent.msgAuth true true false,
        SessionEvent.msgStartScreenShare,
        SessionEvent.frameReady].getD i .msgOther) = true ∧
      [SessionEvent.msgAuth true true false, SessionEvent.msgStartScreenShare,
        SessionEvent.frameReady].getD j .msgOther =
        SessionEvent.msgStartScreenShare ∧
      (sessionStateAt [SessionEvent.msgAuth true true false,
        SessionEvent.msgStartScreenShare,
        SessionEvent.frameReady] j).authenticated = true :=
  C2_frames_after_auth_and_share
    [SessionEvent.msgAuth true true false, SessionEvent.msgStartScreenShare,
      SessionEvent.frameReady] 2 (by decide)

/-- C3 counterexample: after a wrong-token `auth` the host has sent
`auth_response{success:false}` but has NOT closed the connection — the very
same session goes on to process a later valid external `auth` and becomes
authenticated, which would be impossible on a closed socket. -/
theorem C3_wrong_token_cex :
    sessionOutputsAt [SessionEvent.msgAuth false false false] 0 =
      [SOutput.authResponse false] ∧
    (runSession initialSession
      [SessionEvent.msgAuth false false false]).closed = false ∧
    (runSession initialSession
      [SessionEvent.msgAuth false false false,
        SessionEvent.msgAuth true true false]).authenticated = true := by
  decide

/-- C3 amended: a wrong-token `auth` makes the host send
`auth_response{success:false}` and nothing else — no Approval Request is
created and the session state is untouched, so in particular the host does
not close the connection (the loop keeps serving the socket). -/
theorem C3_wrong_token_amended (s : SessionState) (ext app : Bool)
    (hs : s.closed = false) :
    sessionStep s (.msgAuth false ext app) = (s, [SOutput.authResponse false]) ∧
    SOutput.approvalRequest ∉ (sessionStep s (.msgAuth false ext app)).2 ∧
    (sessionStep s (.msgAuth false ext app)).1.closed = false := by
  have h1 : sessionStep s (.msgAuth false ext app) =
      (s, [SOutput.authResponse false]) := by
    simp [sessionStep, hs]
  exact ⟨h1, by rw [h1]; simp, by rw [h1]; exact hs⟩

/-- C3 witness: the amended behaviour at the initial session state. -/
theorem C3_wrong_token_amended_witness :
    sessionStep initialSession (.msgAuth false false false) =
      (initialSession, [SOutput.authResponse false]) ∧
    SOutput.approvalRequest ∉
      (sessionStep initialSession (.msgAuth false false false)).2 ∧
    (sessionStep initialSession (.msgAuth false false false)).1.closed =
      false :=
  C3_wrong_token_amended initialSession false false rfl

end PocketRemote
